import Mathlib

/-!
Verification of the bigquery-flash-data-sync core pipeline.

The Go source is shallowly embedded: pure functions become Lean functions,
external calls (MySQL driver, BigQuery client) become explicit result values
supplied as inputs, and side effects are recorded as explicit action traces.
Go strings handled at the character level (the MySQL type mapper) are
modelled as lists of code points (`List Nat`); other strings stay `String`.
-/

namespace DataSync

/-- The six BigQuery field types the pipeline produces
(`bigquery.StringFieldType` etc.). -/
inductive FieldType where
  | string
  | integer
  | float
  | date
  | timestamp
  | boolean
deriving DecidableEq, Repr

/-- Code points of a string literal; used to state facts about the
character-level model. -/
def chars (s : String) : List Nat :=
  s.toList.map Char.toNat

/-- ASCII uppercase of one code point, as `strings.ToUpper` acts on the
ASCII characters appearing in MySQL type names. -/
def upChar (c : Nat) : Nat :=
  if 97 ≤ c ∧ c ≤ 122 then c - 32 else c

/-- `strings.ToUpper` on a type name. -/
def goToUpper (s : List Nat) : List Nat :=
  s.map upChar

/-- `strings.Split(mysqlType, "(")[0]`: everything before the first
opening parenthesis (code point 40). -/
def stripParams (s : List Nat) : List Nat :=
  s.takeWhile (fun c => c ≠ 40)

/-- The normalisation applied in `mysqlTypeToBigQueryType`:
`strings.ToUpper(strings.Split(mysqlType, "(")[0])`. -/
def normalizeType (s : List Nat) : List Nat :=
  goToUpper (stripParams s)

/-- The fixed case list of `mysqlTypeToBigQueryType`, applied to the
normalised name; the default branch returns STRING. -/
def typeFor (t : List Nat) : FieldType :=
  if t = chars "VARCHAR" ∨ t = chars "CHAR" ∨ t = chars "TEXT" ∨
     t = chars "TINYTEXT" ∨ t = chars "MEDIUMTEXT" ∨ t = chars "LONGTEXT" then
    .string
  else if t = chars "INT" ∨ t = chars "TINYINT" ∨ t = chars "SMALLINT" ∨
          t = chars "MEDIUMINT" ∨ t = chars "BIGINT" then
    .integer
  else if t = chars "FLOAT" ∨ t = chars "DOUBLE" ∨ t = chars "DECIMAL" then
    .float
  else if t = chars "DATE" then
    .date
  else if t = chars "DATETIME" ∨ t = chars "TIMESTAMP" then
    .timestamp
  else if t = chars "BOOLEAN" ∨ t = chars "BOOL" then
    .boolean
  else
    .string

/-- `mysqlTypeToBigQueryType` from the pipeline package (the logger argument
only records a warning in the default branch and is dropped). -/
def mysqlTypeToBigQueryType (s : List Nat) : FieldType :=
  typeFor (normalizeType s)

/-- The names recognised by the switch, in normalised (uppercase) form. -/
def knownTypeNames : List (List Nat) :=
  [chars "VARCHAR", chars "CHAR", chars "TEXT", chars "TINYTEXT",
   chars "MEDIUMTEXT", chars "LONGTEXT", chars "INT", chars "TINYINT",
   chars "SMALLINT", chars "MEDIUMINT", chars "BIGINT", chars "FLOAT",
   chars "DOUBLE", chars "DECIMAL", chars "DATE", chars "DATETIME",
   chars "TIMESTAMP", chars "BOOLEAN", chars "BOOL"]

/-- The documented native-name-to-semantic-type table, written from the
spec's mapping section for comparison with the code's switch. -/
def specTypeTable : List (List Nat × FieldType) :=
  [(chars "VARCHAR", .string), (chars "CHAR", .string), (chars "TEXT", .string),
   (chars "TINYTEXT", .string), (chars "MEDIUMTEXT", .string),
   (chars "LONGTEXT", .string), (chars "INT", .integer),
   (chars "TINYINT", .integer), (chars "SMALLINT", .integer),
   (chars "MEDIUMINT", .integer), (chars "BIGINT", .integer),
   (chars "FLOAT", .float), (chars "DOUBLE", .float), (chars "DECIMAL", .float),
   (chars "DATE", .date), (chars "DATETIME", .timestamp),
   (chars "TIMESTAMP", .timestamp), (chars "BOOLEAN", .boolean),
   (chars "BOOL", .boolean)]

lemma upChar_idem (c : Nat) : upChar (upChar c) = upChar c := by
  unfold upChar
  split_ifs <;> omega

lemma upChar_eq_paren_iff (c : Nat) : upChar c = 40 ↔ c = 40 := by
  unfold upChar
  split_ifs <;> omega

lemma stripParams_map_upChar (s : List Nat) :
    stripParams (goToUpper s) = goToUpper (stripParams s) := by
  induction s with
  | nil => rfl
  | cons c cs ih =>
    unfold stripParams goToUpper at ih ⊢
    simp only [List.map_cons, List.takeWhile_cons]
    by_cases h : c = 40
    · subst h
      simp [upChar]
    · have h40 : ¬ upChar c = 40 := fun hc => h ((upChar_eq_paren_iff c).mp hc)
      simp only [h, h40, decide_False, decide_True, ne_eq, not_false_iff]
      simp only [ne_eq, h40, not_false_iff, decide_True, h, decide_False,
        if_true, List.map_cons]
      exact congrArg (upChar c :: ·) ih

lemma goToUpper_idem (s : List Nat) : goToUpper (goToUpper s) = goToUpper s := by
  unfold goToUpper
  rw [List.map_map]
  exact List.map_congr_left (fun c _ => upChar_idem c)

lemma normalizeType_goToUpper (s : List Nat) :
    normalizeType (goToUpper s) = normalizeType s := by
  unfold normalizeType
  rw [stripParams_map_upChar, goToUpper_idem]

lemma stripParams_append_paren (name suffix : List Nat)
    (h : ∀ c ∈ name, c ≠ 40) :
    stripParams (name ++ 40 :: suffix) = name := by
  induction name with
  | nil => simp [stripParams]
  | cons c cs ih =>
    have hc : c ≠ 40 := h c (List.mem_cons_self c cs)
    have hcs : ∀ x ∈ cs, x ≠ 40 := fun x hx => h x (List.mem_cons_of_mem c hx)
    unfold stripParams at ih ⊢
    simp only [List.cons_append, List.takeWhile_cons, hc, decide_False,
      decide_True, ne_eq, not_false_iff, if_true]
    exact congrArg (c :: ·) (ih hcs)

lemma stripParams_no_paren (name : List Nat) (h : ∀ c ∈ name, c ≠ 40) :
    stripParams name = name := by
  induction name with
  | nil => rfl
  | cons c cs ih =>
    have hc : c ≠ 40 := h c (List.mem_cons_self c cs)
    have hcs : ∀ x ∈ cs, x ≠ 40 := fun x hx => h x (List.mem_cons_of_mem c hx)
    unfold stripParams at ih ⊢
    simp only [List.takeWhile_cons, hc, decide_False, decide_True, ne_eq,
      not_false_iff, if_true]
    exact congrArg (c :: ·) (ih hcs)

lemma typeFor_mem_six (t : List Nat) :
    typeFor t ∈ [FieldType.string, .integer, .float, .date, .timestamp,
      .boolean] := by
  unfold typeFor
  split_ifs <;> simp

lemma typeFor_default (t : List Nat) (h : t ∉ knownTypeNames) :
    typeFor t = .string := by
  unfold typeFor knownTypeNames at *
  split_ifs <;> simp_all

/-- C2: the source-type-to-semantic-type mapping is a pure total function:
it factors through uppercase normalisation with parenthesized parameters
stripped (so matching is case-insensitive and suffix-insensitive), returns
one of the six semantic types for every input, agrees with the documented
table on every known native type name, and returns STRING on every
unrecognized name. -/
theorem c2_type_mapping_total :
    (∀ s : List Nat, mysqlTypeToBigQueryType s ∈
        [FieldType.string, .integer, .float, .date, .timestamp, .boolean])
    ∧ (∀ s : List Nat,
        mysqlTypeToBigQueryType (goToUpper s) = mysqlTypeToBigQueryType s)
    ∧ (∀ name suffix : List Nat, (∀ c ∈ name, c ≠ 40) →
        mysqlTypeToBigQueryType (name ++ 40 :: suffix)
          = mysqlTypeToBigQueryType name)
    ∧ (∀ p ∈ specTypeTable, typeFor p.1 = p.2)
    ∧ (∀ s : List Nat, normalizeType s ∉ knownTypeNames →
        mysqlTypeToBigQueryType s = .string) := by
  refine ⟨fun s => typeFor_mem_six _, fun s => ?_, fun name suffix h => ?_,
    ?_, fun s h => typeFor_default _ h⟩
  · unfold mysqlTypeToBigQueryType
    rw [normalizeType_goToUpper]
  · unfold mysqlTypeToBigQueryType normalizeType
    rw [stripParams_append_paren name suffix h, stripParams_no_paren name h]
  · decide

/-- Witness for C2 at concrete inputs: a lowercase name with a length
suffix maps as documented, and an unrecognized name maps to STRING. -/
theorem c2_type_mapping_total_witness :
    mysqlTypeToBigQueryType (chars "varchar" ++ 40 :: chars "255)")
      = mysqlTypeToBigQueryType (chars "varchar")
    ∧ typeFor (chars "DATETIME", FieldType.timestamp).1 = .timestamp
    ∧ mysqlTypeToBigQueryType (chars "JSON") = .string := by
  refine ⟨c2_type_mapping_total.2.2.1 (chars "varchar") (chars "255)")
      (by decide), ?_, ?_⟩
  · exact c2_type_mapping_total.2.2.2.1 (chars "DATETIME", FieldType.timestamp)
      (by decide)
  · exact c2_type_mapping_total.2.2.2.2 (chars "JSON") (by decide)

/-- A `bigquery.FieldSchema` as the pipeline uses it: `Name`, `Type` and
`Required` (other metadata is never read). -/
structure FieldSchema where
  name : String
  type : FieldType
  required : Bool
deriving DecidableEq, Repr

/-- `bigquery.Schema`: an ordered list of fields. -/
abbrev Schema := List FieldSchema

def fieldNames (s : Schema) : List String :=
  s.map FieldSchema.name

def fieldPair (f : FieldSchema) : String × FieldType :=
  (f.name, f.type)

/-- The (name, type) projection `SchemasMatch` compares on. -/
def fieldPairs (s : Schema) : List (String × FieldType) :=
  s.map fieldPair

/-- One insertion `mapS1[field.Name] = field.Type` into the Go map,
modelled as function update: a later insertion overwrites. -/
def insertField (m : String → Option FieldType) (f : FieldSchema) :
    String → Option FieldType :=
  fun n => if n = f.name then some f.type else m n

/-- The map `mapS1` built in `SchemasMatch` by iterating over `s1`. -/
def fieldTypeMap (s1 : Schema) : String → Option FieldType :=
  s1.foldl insertField (fun _ => none)

/-- `SchemasMatch` from the model package: false when the field counts
differ, otherwise collect every field of `s2` that is missing from `s1`'s
name-to-type map or carries a different type, and succeed when no
mismatch was collected. -/
def SchemasMatch (s1 s2 : Schema) : Bool :=
  if s1.length ≠ s2.length then
    false
  else
    (s2.filter (fun f =>
      match fieldTypeMap s1 f.name with
      | none => true
      | some t => t != f.type)).isEmpty

lemma foldl_insert_of_absent (fs : Schema) (m : String → Option FieldType)
    (n : String) (h : ∀ f ∈ fs, f.name ≠ n) :
    fs.foldl insertField m n = m n := by
  induction fs generalizing m with
  | nil => rfl
  | cons g gs ih =>
    have hg : g.name ≠ n := h g (List.mem_cons_self g gs)
    have hgs : ∀ f ∈ gs, f.name ≠ n := fun f hf => h f (List.mem_cons_of_mem g hf)
    simp only [List.foldl_cons]
    rw [ih (insertField m g) hgs]
    unfold insertField
    rw [if_neg (fun hn : n = g.name => hg hn.symm)]

lemma foldl_insert_of_mem (fs : Schema) (m : String → Option FieldType)
    (f : FieldSchema) (hnd : (fieldNames fs).Nodup) (hf : f ∈ fs) :
    fs.foldl insertField m f.name = some f.type := by
  induction fs generalizing m with
  | nil => exact absurd hf (List.not_mem_nil f)
  | cons g gs ih =>
    have hnd' : (fieldNames gs).Nodup := (List.nodup_cons.mp hnd).2
    have hgname : g.name ∉ fieldNames gs := (List.nodup_cons.mp hnd).1
    rcases List.mem_cons.mp hf with hfg | hfgs
    · subst hfg
      simp only [List.foldl_cons]
      rw [foldl_insert_of_absent gs (insertField m f)
        f.name (fun x hx hn => hgname (hn ▸ List.mem_map_of_mem FieldSchema.name hx))]
      unfold insertField
      simp
    · simp only [List.foldl_cons]
      exact ih (insertField m g) hnd' hfgs

lemma foldl_insert_some (fs : Schema) (m : String → Option FieldType)
    (n : String) (t : FieldType) (h : fs.foldl insertField m n = some t) :
    (∃ f ∈ fs, f.name = n ∧ f.type = t) ∨ m n = some t := by
  induction fs generalizing m with
  | nil => exact .inr h
  | cons g gs ih =>
    simp only [List.foldl_cons] at h
    rcases ih (insertField m g) h with ⟨f, hf, hfn, hft⟩ | hm
    · exact .inl ⟨f, List.mem_cons_of_mem g hf, hfn, hft⟩
    · unfold insertField at hm
      by_cases hn : n = g.name
      · simp only [hn, if_true] at hm
        exact .inl ⟨g, List.mem_cons_self g gs, hn.symm, Option.some_inj.mp hm⟩
      · simp only [hn, if_false] at hm
        exact .inr hm

lemma fieldTypeMap_some (s1 : Schema) (n : String) (t : FieldType)
    (h : fieldTypeMap s1 n = some t) : ∃ f ∈ s1, f.name = n ∧ f.type = t := by
  rcases foldl_insert_some s1 (fun _ => none) n t h with hex | hnone
  · exact hex
  · exact absurd hnone (by simp)

lemma fieldTypeMap_of_mem (s1 : Schema) (f : FieldSchema)
    (hnd : (fieldNames s1).Nodup) (hf : f ∈ s1) :
    fieldTypeMap s1 f.name = some f.type :=
  foldl_insert_of_mem s1 (fun _ => none) f hnd hf

lemma fieldTypeMap_absent (s1 : Schema) (n : String)
    (h : n ∉ fieldNames s1) : fieldTypeMap s1 n = none :=
  foldl_insert_of_absent s1 (fun _ => none) n
    (fun _f hf hn => h (hn ▸ List.mem_map_of_mem FieldSchema.name hf))

lemma fieldPairs_map_fst (s : Schema) :
    (fieldPairs s).map Prod.fst = fieldNames s := by
  unfold fieldPairs fieldNames fieldPair
  rw [List.map_map]
  rfl

lemma fieldPairs_nodup (s : Schema) (h : (fieldNames s).Nodup) :
    (fieldPairs s).Nodup :=
  List.Nodup.of_map Prod.fst (by rw [fieldPairs_map_fst]; exact h)

lemma schemasMatch_true_iff (s1 s2 : Schema)
    (h1 : (fieldNames s1).Nodup) (h2 : (fieldNames s2).Nodup) :
    SchemasMatch s1 s2 = true ↔ List.Perm (fieldPairs s1) (fieldPairs s2) := by
  unfold SchemasMatch
  constructor
  · intro h
    by_cases hlen : s1.length = s2.length
    · rw [if_neg (by simp [hlen])] at h
      simp only [List.isEmpty_iff, List.filter_eq_nil_iff] at h
      have hsub : fieldPairs s2 ⊆ fieldPairs s1 := by
        intro p hp
        rcases List.mem_map.mp hp with ⟨f, hf, hfp⟩
        have hlook := h f hf
        cases hm : fieldTypeMap s1 f.name with
        | none => simp [hm] at hlook
        | some t =>
          simp only [hm, bne_iff_ne, ne_eq, decide_not, Bool.not_eq_true,
            decide_eq_false_iff_not, not_not] at hlook
          rcases fieldTypeMap_some s1 f.name t hm with ⟨g, hg, hgn, hgt⟩
          have : fieldPair g = p := by
            rw [← hfp]
            unfold fieldPair
            rw [hgn, hgt, hlook]
          exact this ▸ List.mem_map_of_mem fieldPair hg
      have hsp := List.subperm_of_subset (fieldPairs_nodup s2 h2) hsub
      have hlen2 : (fieldPairs s1).length ≤ (fieldPairs s2).length := by
        unfold fieldPairs
        simp [hlen]
      exact (hsp.perm_of_length_le hlen2).symm
    · simp [hlen] at h
  · intro hperm
    have hlen : s1.length = s2.length := by
      have := hperm.length_eq
      unfold fieldPairs at this
      simpa using this
    rw [if_neg (by simp [hlen])]
    simp only [List.isEmpty_iff, List.filter_eq_nil_iff]
    intro f hf
    have hp : fieldPair f ∈ fieldPairs s1 :=
      hperm.mem_iff.mpr (List.mem_map_of_mem fieldPair hf)
    rcases List.mem_map.mp hp with ⟨g, hg, hgf⟩
    have hgn : g.name = f.name := congrArg Prod.fst hgf
    have hgt : g.type = f.type := congrArg Prod.snd hgf
    have := fieldTypeMap_of_mem s1 g h1 hg
    rw [hgn, hgt] at this
    simp [this]

lemma schema_eq_of_name_eq (s : Schema) (h : (fieldNames s).Nodup)
    (f g : FieldSchema) (hf : f ∈ s) (hg : g ∈ s) (hn : f.name = g.name) :
    f = g :=
  List.inj_on_of_nodup_map (by exact h) hf hg hn

/-- C3-style names perm helper: matching schemas have permuted name lists. -/
lemma names_perm_of_pairs_perm (s1 s2 : Schema)
    (h : List.Perm (fieldPairs s1) (fieldPairs s2)) : List.Perm (fieldNames s1) (fieldNames s2) := by
  have := h.map Prod.fst
  rwa [fieldPairs_map_fst, fieldPairs_map_fst] at this

/-- C5: on schemas with unique field names (the data-model invariant),
`SchemasMatch` is symmetric; it returns true whenever the (name, type)
pairs agree up to order; and it returns false when one side has a field
name the other lacks or when a shared name carries two different types. -/
theorem c5_schemas_match_symmetric_order_free :
    (∀ s1 s2 : Schema, (fieldNames s1).Nodup → (fieldNames s2).Nodup →
      SchemasMatch s1 s2 = SchemasMatch s2 s1)
    ∧ (∀ s1 s2 : Schema, (fieldNames s1).Nodup →
      List.Perm (fieldPairs s1) (fieldPairs s2) → SchemasMatch s1 s2 = true)
    ∧ (∀ (s1 s2 : Schema) (f : FieldSchema), f ∈ s2 →
      f.name ∉ fieldNames s1 → SchemasMatch s1 s2 = false)
    ∧ (∀ (s1 s2 : Schema) (f : FieldSchema),
      (fieldNames s1).Nodup → (fieldNames s2).Nodup → f ∈ s1 →
      f.name ∉ fieldNames s2 → SchemasMatch s1 s2 = false)
    ∧ (∀ (s1 s2 : Schema) (f g : FieldSchema),
      (fieldNames s1).Nodup → (fieldNames s2).Nodup → f ∈ s1 → g ∈ s2 →
      f.name = g.name → f.type ≠ g.type → SchemasMatch s1 s2 = false) := by
  refine ⟨fun s1 s2 h1 h2 => ?_, fun s1 s2 h1 hperm => ?_,
    fun s1 s2 f hf hn => ?_, fun s1 s2 f h1 h2 hf hn => ?_,
    fun s1 s2 f g h1 h2 hf hg hn ht => ?_⟩
  · rw [Bool.eq_iff_iff, schemasMatch_true_iff s1 s2 h1 h2,
      schemasMatch_true_iff s2 s1 h2 h1]
    exact ⟨List.Perm.symm, List.Perm.symm⟩
  · have h2 : (fieldNames s2).Nodup :=
      ((names_perm_of_pairs_perm s1 s2 hperm).nodup_iff).mp h1
    exact (schemasMatch_true_iff s1 s2 h1 h2).mpr hperm
  · by_contra hne
    have htrue : SchemasMatch s1 s2 = true := by
      cases hsm : SchemasMatch s1 s2 with
      | false => exact absurd hsm hne
      | true => rfl
    unfold SchemasMatch at htrue
    by_cases hlen : s1.length = s2.length
    · rw [if_neg (by simp [hlen])] at htrue
      simp only [List.isEmpty_iff, List.filter_eq_nil_iff] at htrue
      have := htrue f hf
      rw [fieldTypeMap_absent s1 f.name hn] at this
      simp at this
    · rw [if_pos hlen] at htrue
      simp at htrue
  · by_contra hne
    have htrue : SchemasMatch s1 s2 = true := by
      cases h : SchemasMatch s1 s2 with
      | false => exact absurd h hne
      | true => rfl
    have hperm := (schemasMatch_true_iff s1 s2 h1 h2).mp htrue
    exact hn ((names_perm_of_pairs_perm s1 s2 hperm).mem_iff.mp
      (List.mem_map_of_mem FieldSchema.name hf))
  · by_contra hne
    have htrue : SchemasMatch s1 s2 = true := by
      cases h : SchemasMatch s1 s2 with
      | false => exact absurd h hne
      | true => rfl
    have hperm := (schemasMatch_true_iff s1 s2 h1 h2).mp htrue
    have hp : fieldPair g ∈ fieldPairs s1 :=
      hperm.mem_iff.mpr (List.mem_map_of_mem fieldPair hg)
    rcases List.mem_map.mp hp with ⟨g1, hg1, hg1g⟩
    have hg1n : g1.name = g.name := congrArg Prod.fst hg1g
    have hg1t : g1.type = g.type := congrArg Prod.snd hg1g
    have : f = g1 := schema_eq_of_name_eq s1 h1 f g1 hf hg1 (by rw [hg1n, hn])
    exact ht (by rw [this, hg1t])

/-- Witness for C5 at concrete schemas: two-field schemas in swapped order
match in both directions, and a type change breaks the match. -/
theorem c5_schemas_match_symmetric_order_free_witness :
    SchemasMatch
        [⟨"id", .integer, true⟩, ⟨"name", .string, false⟩]
        [⟨"name", .string, false⟩, ⟨"id", .integer, true⟩] = true
    ∧ SchemasMatch
        [⟨"id", .integer, true⟩, ⟨"name", .string, false⟩]
        [⟨"id", .float, true⟩, ⟨"name", .string, false⟩] = false := by
  constructor
  · exact c5_schemas_match_symmetric_order_free.2.1
      [⟨"id", .integer, true⟩, ⟨"name", .string, false⟩]
      [⟨"name", .string, false⟩, ⟨"id", .integer, true⟩]
      (by decide) (by decide)
  · exact c5_schemas_match_symmetric_order_free.2.2.2.2
      [⟨"id", .integer, true⟩, ⟨"name", .string, false⟩]
      [⟨"id", .float, true⟩, ⟨"name", .string, false⟩]
      ⟨"id", .integer, true⟩ ⟨"id", .float, true⟩
      (by decide) (by decide) (by decide) (by decide) rfl (by decide)

/-- A `time.Time` value, represented by the behaviour of its `Format`
method (the only operation the pipeline applies to it). -/
structure GoTime where
  format : String → String

/-- A dynamically typed driver value (`any`), covering the cases the
parser distinguishes plus the values that pass through the default
branch: nil, `[]byte` (carried as its decoded text), `time.Time`, and the
remaining native driver values (int64, bool, string, float64 carried as
its raw bit pattern, which the pipeline never inspects). -/
inductive Value where
  | isNull
  | bytes (text : String)
  | time (t : GoTime)
  | int (n : Int)
  | bool (b : Bool)
  | str (s : String)
  | floatBits (w : Nat)

/-- `convertValueToInterface` from the model package: nil stays nil,
`[]byte` becomes its text, `time.Time` is formatted with the configured
date format, and everything else is returned unchanged. -/
def convertValueToInterface (rawValue : Value) (dateFormat : String) : Value :=
  match rawValue with
  | .isNull => .isNull
  | .bytes b => .str b
  | .time t => .str (t.format dateFormat)
  | v => v

/-- `DynamicRow` from the model package. -/
structure DynamicRow where
  ColumnNames : List String
  Values : List Value

/-- A Go `map[string]any`, modelled as a partial lookup function. -/
def RecordMap : Type := String → Option Value

/-- One Go map assignment `result[colName] = value`. -/
def recordInsert (m : RecordMap) (p : String × Value) : RecordMap :=
  fun k => if k = p.1 then some p.2 else m k

/-- `ToSaveable` from the model package: iterate over the columns and
assign `result[colName] = r.Values[i]` into an initially empty map.
`ParseDynamicRow` always builds `Values` with one entry per column, so
the `i`-indexed access is the zip of the two lists. -/
def ToSaveable (r : DynamicRow) : RecordMap :=
  (r.ColumnNames.zip r.Values).foldl recordInsert (fun _ => none)

/-- The driver-side inputs of `ParseDynamicRow`: the result of
`rows.Columns()` and the result of `rows.Scan` (the raw values, or the
scan error). -/
structure RowScan where
  columns : Except String (List String)
  scanned : Except String (List Value)

/-- `ParseDynamicRow` from the model package: fail if the column list or
the scan fails, otherwise convert every raw value and pair the results
with the column names. -/
def ParseDynamicRow (inp : RowScan) (dateFormat : String) :
    Except String DynamicRow :=
  match inp.columns with
  | .error e => .error ("failed to get columns: " ++ e)
  | .ok cols =>
    match inp.scanned with
    | .error e => .error ("failed to scan row: " ++ e)
    | .ok vals =>
      .ok { ColumnNames := cols,
            Values := vals.map (convertValueToInterface · dateFormat) }

lemma recordMap_foldl_insert (ps : List (String × Value)) (m : RecordMap)
    (k : String) :
    (ps.foldl recordInsert m) k
      = match ps.reverse.find? (fun p => p.1 == k) with
        | some p => some p.2
        | none => m k := by
  induction ps generalizing m with
  | nil => rfl
  | cons p ps ih =>
    simp only [List.foldl_cons, List.reverse_cons, ih, List.find?_append]
    cases hf : ps.reverse.find? (fun q => q.1 == k) with
    | some q => simp
    | none =>
      simp only [Option.none_or]
      unfold recordInsert
      by_cases hk : k = p.1
      · simp [List.find?, hk]
      · have hpk : ¬ p.1 = k := fun h => hk h.symm
        simp only [List.find?, recordInsert, if_neg hk,
          beq_eq_false_iff_ne.mpr hpk]

lemma recordMap_keys (ps : List (String × Value)) (k : String) :
    (ps.foldl recordInsert (fun _ => none)) k ≠ none ↔ k ∈ ps.map Prod.fst := by
  rw [recordMap_foldl_insert]
  cases hf : ps.reverse.find? (fun p => p.1 == k) with
  | some p =>
    have hmem : p ∈ ps := List.mem_reverse.mp (List.mem_of_find?_eq_some hf)
    have hpk : p.1 = k := by simpa using List.find?_some hf
    constructor
    · intro _
      exact hpk ▸ List.mem_map_of_mem Prod.fst hmem
    · intro _
      simp
  | none =>
    constructor
    · intro h
      exact absurd rfl h
    · intro hmem
      rcases List.mem_map.mp hmem with ⟨p, hp, hpk⟩
      have := List.find?_eq_none.mp hf p (List.mem_reverse.mpr hp)
      simp [hpk] at this

lemma recordMap_lookup_of_mem (ps : List (String × Value))
    (h : (ps.map Prod.fst).Nodup) (p : String × Value) (hp : p ∈ ps) :
    ps.foldl recordInsert (fun _ => none) p.1 = some p.2 := by
  rw [recordMap_foldl_insert]
  cases hf : ps.reverse.find? (fun q => q.1 == p.1) with
  | none =>
    have := List.find?_eq_none.mp hf p (List.mem_reverse.mpr hp)
    simp at this
  | some q =>
    have hqmem : q ∈ ps := List.mem_reverse.mp (List.mem_of_find?_eq_some hf)
    have hq1 : q.1 = p.1 := by simpa using List.find?_some hf
    have hqp : q = p := List.inj_on_of_nodup_map h hqmem hp hq1
    rw [hqp]

/-- C6: row-value conversion is total and follows the documented rules:
byte sequences become their text, a date/time value becomes the string
produced by the configured format, null stays null, every other value
passes through unchanged, and a null source value ends up as an explicit
null entry under its column's key in the record built by `ToSaveable`,
never as an absent key. -/
theorem c6_value_conversion_rules :
    (∀ (fmt b : String), convertValueToInterface (.bytes b) fmt = .str b)
    ∧ (∀ (fmt : String) (t : GoTime),
        convertValueToInterface (.time t) fmt = .str (t.format fmt))
    ∧ (∀ fmt : String, convertValueToInterface .isNull fmt = .isNull)
    ∧ (∀ (fmt : String) (n : Int),
        convertValueToInterface (.int n) fmt = .int n)
    ∧ (∀ (fmt : String) (b : Bool),
        convertValueToInterface (.bool b) fmt = .bool b)
    ∧ (∀ (fmt s : String), convertValueToInterface (.str s) fmt = .str s)
    ∧ (∀ (fmt : String) (w : Nat),
        convertValueToInterface (.floatBits w) fmt = .floatBits w)
    ∧ (∀ (inp : RowScan) (fmt : String) (cols : List String)
        (vals : List Value) (row : DynamicRow) (i : Nat)
        (hc : i < cols.length) (hv : i < vals.length),
        inp.columns = .ok cols → inp.scanned = .ok vals →
        vals.length = cols.length → cols.Nodup →
        ParseDynamicRow inp fmt = .ok row →
        vals[i] = .isNull →
        ToSaveable row cols[i] = some Value.isNull) := by
  refine ⟨fun fmt b => rfl, fun fmt t => rfl, fun fmt => rfl, fun fmt n => rfl,
    fun fmt b => rfl, fun fmt s => rfl, fun fmt w => rfl,
    fun inp fmt cols vals row i hc hv hcols hscan hlen hnd hparse hnull => ?_⟩
  unfold ParseDynamicRow at hparse
  rw [hcols, hscan] at hparse
  have hrow : row = DynamicRow.mk cols
      (vals.map (convertValueToInterface · fmt)) :=
    (Except.ok.inj hparse).symm
  subst hrow
  unfold ToSaveable
  have hmaplen : (vals.map (convertValueToInterface · fmt)).length
      = cols.length := by simp [hlen]
  have hfst : ((cols.zip (vals.map (convertValueToInterface · fmt))).map
      Prod.fst) = cols :=
    List.map_fst_zip _ _ (by rw [hmaplen])
  have hnd' : ((cols.zip (vals.map (convertValueToInterface · fmt))).map
      Prod.fst).Nodup := by rw [hfst]; exact hnd
  have hzlen : i < (cols.zip (vals.map (convertValueToInterface · fmt))).length := by
    rw [List.length_zip, hmaplen]
    simpa using hc
  have hmem : (cols.zip (vals.map (convertValueToInterface · fmt)))[i]
      ∈ cols.zip (vals.map (convertValueToInterface · fmt)) :=
    List.getElem_mem _
  have hpair : (cols.zip (vals.map (convertValueToInterface · fmt)))[i]
      = (cols[i], Value.isNull) := by
    rw [List.getElem_zip]
    rw [List.getElem_map]
    rw [hnull]
    rfl
  rw [hpair] at hmem
  exact recordMap_lookup_of_mem _ hnd' _ hmem

/-- Witness for C6 at a concrete row: the null in the second column
surfaces as an explicit null entry under its column name. -/
theorem c6_value_conversion_rules_witness :
    ToSaveable (DynamicRow.mk ["id", "name"] [Value.int 1, Value.isNull])
        "name" = some Value.isNull :=
  c6_value_conversion_rules.2.2.2.2.2.2.2
    (RowScan.mk (.ok ["id", "name"]) (.ok [Value.int 1, Value.isNull]))
    "fmt" ["id", "name"] [Value.int 1, Value.isNull]
    (DynamicRow.mk ["id", "name"] [Value.int 1, Value.isNull])
    1 (by decide) (by decide) rfl rfl rfl (by decide) rfl rfl

/-- C8: for every successfully parsed row, the key set of the record built
for serialization equals the set of column names of the query's result
set (the scan always yields one raw value per column). -/
theorem c8_record_key_set :
    ∀ (inp : RowScan) (fmt : String) (cols : List String)
      (vals : List Value) (row : DynamicRow),
      inp.columns = .ok cols → inp.scanned = .ok vals →
      vals.length = cols.length →
      ParseDynamicRow inp fmt = .ok row →
      ∀ k : String, ToSaveable row k ≠ none ↔ k ∈ cols := by
  intro inp fmt cols vals row hcols hscan hlen hparse k
  unfold ParseDynamicRow at hparse
  rw [hcols, hscan] at hparse
  have hrow : row = DynamicRow.mk cols
      (vals.map (convertValueToInterface · fmt)) :=
    (Except.ok.inj hparse).symm
  subst hrow
  unfold ToSaveable
  rw [recordMap_keys]
  have hfst : ((cols.zip (vals.map (convertValueToInterface · fmt))).map
      Prod.fst) = cols :=
    List.map_fst_zip _ _ (by simp [hlen])
  rw [hfst]

/-- Witness for C8 at a concrete one-column row. -/
theorem c8_record_key_set_witness :
    ToSaveable (DynamicRow.mk ["id"] [Value.str "x"]) "id" ≠ none
      ↔ "id" ∈ ["id"] :=
  c8_record_key_set
    (RowScan.mk (.ok ["id"]) (.ok [Value.str "x"]))
    "fmt" ["id"] [Value.str "x"]
    (DynamicRow.mk ["id"] [Value.str "x"])
    rfl rfl rfl rfl "id"

/-- One `sql.ColumnType` as `InferSchemaFromMySQL` reads it: the column
name, the native type name (`DatabaseTypeName`), and the result of
`Nullable()` — `some b` when the driver reports (b, ok=true), `none`
when nullability cannot be determined (ok=false). -/
structure MySQLColumnType where
  name : String
  databaseTypeName : List Nat
  nullable : Option Bool

/-- One field of the inferred schema: `Required` is `ok && !nullable`. -/
def inferField (col : MySQLColumnType) : FieldSchema :=
  { name := col.name,
    type := mysqlTypeToBigQueryType col.databaseTypeName,
    required := match col.nullable with
      | some nullable => !nullable
      | none => false }

/-- The driver-side inputs of `InferSchemaFromMySQL`: the result of
`db.Query` and of `rows.ColumnTypes()`. -/
structure InferInput where
  query : Except String Unit
  columnTypes : Except String (List MySQLColumnType)

/-- `InferSchemaFromMySQL` from the pipeline package: fail if the sample
query or the column-type retrieval fails, otherwise map every result
column to a BigQuery field. -/
def InferSchemaFromMySQL (inp : InferInput) : Except String Schema :=
  match inp.query with
  | .error e => .error ("schema inference query failed: " ++ e)
  | .ok _ =>
    match inp.columnTypes with
    | .error e => .error ("failed to get column types for inference: " ++ e)
    | .ok cols => .ok (cols.map inferField)

lemma inferSchema_ok (inp : InferInput) (cols : List MySQLColumnType)
    (schema : Schema) (hc : inp.columnTypes = .ok cols)
    (h : InferSchemaFromMySQL inp = .ok schema) :
    schema = cols.map inferField := by
  unfold InferSchemaFromMySQL at h
  cases hq : inp.query with
  | error e => rw [hq] at h; exact absurd h (by simp)
  | ok u =>
    rw [hq, hc] at h
    exact (Except.ok.inj h).symm

/-- C7: in every successfully inferred schema, a field's required flag is
true exactly when the driver asserted the column non-nullable
(`Nullable()` returned (false, true)); in particular an undetermined
nullability yields a nullable field. -/
theorem c7_required_only_when_asserted :
    ∀ (inp : InferInput) (cols : List MySQLColumnType) (schema : Schema),
      inp.columnTypes = .ok cols →
      InferSchemaFromMySQL inp = .ok schema →
      ∀ (i : Nat) (hi : i < schema.length) (hc : i < cols.length),
        (schema[i].required = true ↔ cols[i].nullable = some false) := by
  intro inp cols schema hcols hinf i hi hc
  have hs := inferSchema_ok inp cols schema hcols hinf
  subst hs
  rw [List.getElem_map]
  unfold inferField
  cases hn : cols[i].nullable with
  | none => simp
  | some b => cases b <;> simp

/-- Witness for C7: a driver-asserted non-nullable column becomes
required, an undetermined one nullable. -/
theorem c7_required_only_when_asserted_witness :
    ((inferField (MySQLColumnType.mk "id" (chars "INT") (some false))).required = true
      ↔ (some false : Option Bool) = some false) :=
  c7_required_only_when_asserted
    { query := .ok (), columnTypes := .ok [(MySQLColumnType.mk "id" (chars "INT") (some false))] }
    [(MySQLColumnType.mk "id" (chars "INT") (some false))]
    ([(MySQLColumnType.mk "id" (chars "INT") (some false))].map inferField)
    rfl rfl 0 (by decide) (by decide)

/-- C10: a successfully inferred schema has exactly one field per result
column, in result-column order, and each field keeps its column's name. -/
theorem c10_schema_one_field_per_column :
    ∀ (inp : InferInput) (cols : List MySQLColumnType) (schema : Schema),
      inp.columnTypes = .ok cols →
      InferSchemaFromMySQL inp = .ok schema →
      schema.length = cols.length ∧
      ∀ (i : Nat) (hi : i < schema.length) (hc : i < cols.length),
        schema[i].name = cols[i].name := by
  intro inp cols schema hcols hinf
  have hs := inferSchema_ok inp cols schema hcols hinf
  subst hs
  refine ⟨List.length_map cols inferField, fun i hi hc => ?_⟩
  rw [List.getElem_map]
  rfl

/-- Witness for C10 at a concrete two-column inference. -/
theorem c10_schema_one_field_per_column_witness :
    ([(MySQLColumnType.mk "id" (chars "INT") (some false)),
        (MySQLColumnType.mk "name" (chars "VARCHAR") (some true))].map inferField).length
      = ([(MySQLColumnType.mk "id" (chars "INT") (some false)),
          (MySQLColumnType.mk "name" (chars "VARCHAR") (some true))] :
            List MySQLColumnType).length :=
  (c10_schema_one_field_per_column
    { query := .ok (),
      columnTypes := .ok [(MySQLColumnType.mk "id" (chars "INT") (some false)),
        (MySQLColumnType.mk "name" (chars "VARCHAR") (some true))] }
    [(MySQLColumnType.mk "id" (chars "INT") (some false)), (MySQLColumnType.mk "name" (chars "VARCHAR") (some true))]
    ([(MySQLColumnType.mk "id" (chars "INT") (some false)),
        (MySQLColumnType.mk "name" (chars "VARCHAR") (some true))].map inferField)
    rfl rfl).1

/-- `strings.Contains(s, sub)`. -/
def strContains (s sub : String) : Bool :=
  decide (List.IsInfix sub.toList s.toList)

/-- `model.BQTable`: destination table name plus desired schema. -/
structure BQTable where
  name : String
  schema : Schema

/-- The BigQuery-side outcomes `createOrUpdateTable` can observe: the
metadata fetch (the current schema, or an error whose text signals
"Not found" for an absent table), and the results of the update, delete
and create calls should they be issued. -/
structure ReconcileEnv where
  metadata : Except String Schema
  update : Except String Unit
  delete : Except String Unit
  create : Except String Unit

/-- The destination calls `createOrUpdateTable` actually issues, in
order. -/
inductive BQAction where
  | create
  | update
  | delete
deriving DecidableEq, Repr

/-- The critical-error classification from `createOrUpdateTable`:
`(strings.Contains(err, "changed type") || strings.Contains(err, "is
missing")) && strings.Contains(err, "invalid")`. -/
def isCriticalError (e : String) : Bool :=
  (strContains e "changed type" || strContains e "is missing")
    && strContains e "invalid"

/-- `createOrUpdateTable` from the pipeline package, returning its error
outcome together with the trace of destructive/mutating BigQuery calls it
issued. Absent table (metadata error containing "Not found") → create;
present with matching schema → no-op; schema mismatch → update, and on a
critical update error delete then recreate, otherwise fail. -/
def createOrUpdateTable (env : ReconcileEnv) (table : BQTable) :
    Except String Unit × List BQAction :=
  match env.metadata with
  | .error e =>
    if strContains e "Not found" then
      match env.create with
      | .error ce => (.error ("failed to create table: " ++ ce), [.create])
      | .ok _ => (.ok (), [.create])
    else
      (.error ("failed to get table metadata: " ++ e), [])
  | .ok existingSchema =>
    if SchemasMatch existingSchema table.schema then
      (.ok (), [])
    else
      match env.update with
      | .ok _ => (.ok (), [.update])
      | .error ue =>
        if isCriticalError ue then
          match env.delete with
          | .error de =>
            (.error ("failed to delete table with bad schema: " ++ de),
              [.update, .delete])
          | .ok _ =>
            match env.create with
            | .error ce =>
              (.error ("failed to recreate table with correct schema: " ++ ce),
                [.update, .delete, .create])
            | .ok _ => (.ok (), [.update, .delete, .create])
        else
          (.error ("failed to update table schema: " ++ ue), [.update])

/-- C1: when the in-place schema update fails, the destructive recreate
path (a delete or a create call) is taken exactly when the update error is
classified critical; for every non-critical update failure the call fails
with an error and the only destination call made after the failed update
is nothing at all — the table is never deleted or recreated. -/
theorem c1_recreate_iff_critical :
    ∀ (env : ReconcileEnv) (table : BQTable) (existing : Schema)
      (ue : String),
      env.metadata = .ok existing →
      SchemasMatch existing table.schema = false →
      env.update = .error ue →
      ((BQAction.delete ∈ (createOrUpdateTable env table).2
          ∨ BQAction.create ∈ (createOrUpdateTable env table).2)
        ↔ isCriticalError ue = true)
      ∧ (isCriticalError ue = false →
          (∃ msg, (createOrUpdateTable env table).1 = .error msg)
          ∧ (createOrUpdateTable env table).2 = [BQAction.update]) := by
  intro env table existing ue hmeta hmatch hupd
  unfold createOrUpdateTable
  rw [hmeta, hupd]
  simp only [hmatch, Bool.false_eq_true, if_false]
  cases hcrit : isCriticalError ue with
  | true =>
    simp only [if_true]
    cases env.delete with
    | error de => simp
    | ok u =>
      cases env.create with
      | error ce => simp
      | ok v => simp
  | false =>
    rw [if_neg (by exact Bool.false_ne_true)]
    refine ⟨iff_of_false (by simp) (by exact Bool.false_ne_true),
      fun _ => ⟨⟨"failed to update table schema: " ++ ue, rfl⟩, rfl⟩⟩

/-- Concrete reconciliation scenario for the C1 witness: a present table
whose schema differs from the desired one. -/
def reconcileEnvCritical : ReconcileEnv :=
  { metadata := .ok [FieldSchema.mk "a" .string false],
    update := .error "invalid: field a changed type",
    delete := .ok (),
    create := .ok () }

/-- Same scenario with an ordinary (non-critical) update failure. -/
def reconcileEnvOrdinary : ReconcileEnv :=
  { metadata := .ok [FieldSchema.mk "a" .string false],
    update := .error "quota exceeded",
    delete := .ok (),
    create := .ok () }

/-- The desired table spec used by the C1 witness. -/
def reconcileTable : BQTable :=
  { name := "t", schema := [FieldSchema.mk "a" .integer false] }

/-- Witness for C1: the critical update error triggers the recreate path,
the ordinary one leaves a plain update failure. -/
theorem c1_recreate_iff_critical_witness :
    (BQAction.delete ∈ (createOrUpdateTable reconcileEnvCritical
        reconcileTable).2
      ∨ BQAction.create ∈ (createOrUpdateTable reconcileEnvCritical
        reconcileTable).2)
    ∧ (createOrUpdateTable reconcileEnvOrdinary reconcileTable).2
        = [BQAction.update] := by
  constructor
  · exact (c1_recreate_iff_critical reconcileEnvCritical reconcileTable
      [FieldSchema.mk "a" .string false] "invalid: field a changed type"
      rfl (by decide) rfl).1.mpr (by decide)
  · exact ((c1_recreate_iff_critical reconcileEnvOrdinary reconcileTable
      [FieldSchema.mk "a" .string false] "quota exceeded"
      rfl (by decide) rfl).2 (by decide)).2

/-- The mutable loop state of `executeJob`: the in-memory JSON-lines
buffer and the `totalRowsExtracted` / `skippedRows` counters. -/
structure JobState where
  buf : List String
  extracted : Nat
  skipped : Nat

/-- The JSON encoder: given the record map of a parsed row, produce the
encoded line or fail. -/
def Encoder : Type :=
  RecordMap → Except String String

/-- Whether a row's `ParseFunc` outcome was a failure. -/
def isParseFailure (r : Except String DynamicRow) : Bool :=
  match r with
  | .error _ => true
  | .ok _ => false

/-- The `for rows.Next()` loop of `executeJob`: each element of the list
is the `ParseFunc` outcome for one source row. A parse failure increments
`skippedRows` and continues; an encode failure returns immediately with
the fatal error; an encoded row is appended to the buffer and counted. -/
def extractLoop (enc : Encoder) :
    List (Except String DynamicRow) → JobState → JobState × Option String
  | [], st => (st, none)
  | r :: rest, st =>
    match r with
    | .error _ =>
      extractLoop enc rest ⟨st.buf, st.extracted, st.skipped + 1⟩
    | .ok row =>
      match enc (ToSaveable row) with
      | .error e =>
        (st, some ("failed to write row to memory buffer: " ++ e))
      | .ok line =>
        extractLoop enc rest ⟨st.buf ++ [line], st.extracted + 1, st.skipped⟩

/-- The external outcomes `executeJob` observes: the nil-handle guard,
the query result (per-row parse outcomes on success), the row-cursor
error after iteration (`rows.Err()`), and the results of the load
submission, the wait, and the completed job's status. -/
structure JobInput where
  dbNil : Bool
  queryResult : Except String (List (Except String DynamicRow))
  iterErr : Option String
  loadRun : Except String Unit
  loadWait : Except String Unit
  loadStatus : Option String

/-- What one `executeJob` run returns and did: its error outcome, the two
counters, the buffer, and whether a BigQuery load was submitted. -/
structure JobResult where
  outcome : Except String Unit
  extracted : Nat
  skipped : Nat
  buf : List String
  loadSubmitted : Bool

/-- `executeJob` from the pipeline package: guard the nil handle, run the
query, iterate the rows, check the cursor error, end successfully with no
load when nothing was extracted, otherwise submit the truncating load and
wait for it. -/
def executeJob (enc : Encoder) (inp : JobInput) : JobResult :=
  if inp.dbNil then
    ⟨.error "database connection is nil", 0, 0, [], false⟩
  else
    match inp.queryResult with
    | .error e => ⟨.error ("failed to query database: " ++ e), 0, 0, [], false⟩
    | .ok rows =>
      match extractLoop enc rows ⟨[], 0, 0⟩ with
      | (st, some e) => ⟨.error e, st.extracted, st.skipped, st.buf, false⟩
      | (st, none) =>
        match inp.iterErr with
        | some e =>
          ⟨.error ("error during row iteration: " ++ e),
            st.extracted, st.skipped, st.buf, false⟩
        | none =>
          if st.extracted = 0 then
            ⟨.ok (), st.extracted, st.skipped, st.buf, false⟩
          else
            match inp.loadRun with
            | .error e =>
              ⟨.error ("failed to create BigQuery load job: " ++ e),
                st.extracted, st.skipped, st.buf, true⟩
            | .ok _ =>
              match inp.loadWait with
              | .error e =>
                ⟨.error ("failed to wait for BigQuery job to complete: " ++ e),
                  st.extracted, st.skipped, st.buf, true⟩
              | .ok _ =>
                match inp.loadStatus with
                | some e =>
                  ⟨.error ("BigQuery load job failed: " ++ e),
                    st.extracted, st.skipped, st.buf, true⟩
                | none => ⟨.ok (), st.extracted, st.skipped, st.buf, true⟩

lemma extractLoop_all_encode_ok (enc : Encoder)
    (rows : List (Except String DynamicRow)) (st : JobState)
    (h : ∀ row : DynamicRow, .ok row ∈ rows →
      ∃ s, enc (ToSaveable row) = .ok s) :
    (extractLoop enc rows st).2 = none
    ∧ (extractLoop enc rows st).1.skipped
        = st.skipped + rows.countP isParseFailure
    ∧ (extractLoop enc rows st).1.extracted
        = st.extracted + rows.countP (fun r => !isParseFailure r)
    ∧ (extractLoop enc rows st).1.buf.length
        = st.buf.length + rows.countP (fun r => !isParseFailure r) := by
  induction rows generalizing st with
  | nil => simp [extractLoop]
  | cons r rest ih =>
    have hrest : ∀ row : DynamicRow, .ok row ∈ rest →
        ∃ s, enc (ToSaveable row) = .ok s :=
      fun row hrow => h row (List.mem_cons_of_mem r hrow)
    cases r with
    | error e =>
      have := ih ⟨st.buf, st.extracted, st.skipped + 1⟩ hrest
      dsimp only at this
      simp only [extractLoop]
      refine ⟨this.1, ?_, ?_, ?_⟩
      · rw [this.2.1]
        rw [List.countP_cons_of_pos _ _ (by rfl)]
        omega
      · rw [this.2.2.1]
        rw [List.countP_cons_of_neg _ _ (by simp [isParseFailure])]
      · rw [this.2.2.2]
        rw [List.countP_cons_of_neg _ _ (by simp [isParseFailure])]
    | ok row =>
      obtain ⟨s, hs⟩ := h row (List.mem_cons_self _ _)
      have := ih ⟨st.buf ++ [s], st.extracted + 1, st.skipped⟩ hrest
      dsimp only at this
      simp only [extractLoop, hs]
      refine ⟨this.1, ?_, ?_, ?_⟩
      · rw [this.2.1]
        rw [List.countP_cons_of_neg _ _ (by simp [isParseFailure])]
      · rw [this.2.2.1]
        rw [List.countP_cons_of_pos _ _ (by simp [isParseFailure])]
        omega
      · rw [this.2.2.2]
        rw [List.countP_cons_of_pos _ _ (by simp [isParseFailure])]
        simp only [List.length_append, List.length_singleton]
        omega

lemma executeJob_state_fields (enc : Encoder) (inp : JobInput)
    (rows : List (Except String DynamicRow)) (st : JobState)
    (hdb : inp.dbNil = false) (hq : inp.queryResult = .ok rows)
    (hloop : extractLoop enc rows ⟨[], 0, 0⟩ = (st, none)) :
    (executeJob enc inp).extracted = st.extracted
    ∧ (executeJob enc inp).skipped = st.skipped
    ∧ (executeJob enc inp).buf = st.buf := by
  unfold executeJob
  simp only [hdb, hq, Bool.false_eq_true, if_false, hloop]
  cases inp.iterErr with
  | some e => exact ⟨rfl, rfl, rfl⟩
  | none =>
    by_cases hz : st.extracted = 0
    · rw [if_pos hz]
      exact ⟨rfl, rfl, rfl⟩
    · rw [if_neg hz]
      cases inp.loadRun with
      | error e => exact ⟨rfl, rfl, rfl⟩
      | ok u =>
        cases inp.loadWait with
        | error e => exact ⟨rfl, rfl, rfl⟩
        | ok v =>
          cases inp.loadStatus with
          | some e => exact ⟨rfl, rfl, rfl⟩
          | none => exact ⟨rfl, rfl, rfl⟩

/-- A parsed one-column row used in the concrete C3 scenario. -/
def sampleParsedRow : DynamicRow :=
  DynamicRow.mk ["id"] [Value.int 1]

/-- An encoder that always succeeds, as the JSON encoder does on the
records of the concrete C3 scenario. -/
def encOk : Encoder :=
  fun _ => .ok "rec"

/-- Ten source rows whose fifth fails to parse. -/
def rowsTenOneBad : List (Except String DynamicRow) :=
  [.ok sampleParsedRow, .ok sampleParsedRow, .ok sampleParsedRow,
   .ok sampleParsedRow, .error "scan failure", .ok sampleParsedRow,
   .ok sampleParsedRow, .ok sampleParsedRow, .ok sampleParsedRow,
   .ok sampleParsedRow]

/-- The job input of the concrete C3 scenario: healthy handle, the ten
rows above, no cursor error, and a load that succeeds. -/
def jobInputTenOneBad : JobInput :=
  JobInput.mk false (.ok rowsTenOneBad) none (.ok ()) (.ok ()) none

/-- C3: a per-row parse failure only increments the skipped counter and
processing continues; an encode failure of a parsed record aborts the
whole task with that error; when every parsed record encodes, the
counters equal the number of failed and successful rows respectively; and
in the concrete ten-row scenario with exactly row 5 failing to parse, 9
records are buffered, 1 row is skipped, and the task still submits the
load and succeeds. -/
theorem c3_parse_skip_encode_fatal :
    (∀ (enc : Encoder) (rest : List (Except String DynamicRow))
        (st : JobState) (e : String),
        extractLoop enc (.error e :: rest) st
          = extractLoop enc rest ⟨st.buf, st.extracted, st.skipped + 1⟩)
    ∧ (∀ (enc : Encoder) (rest : List (Except String DynamicRow))
        (st : JobState) (row : DynamicRow) (e : String),
        enc (ToSaveable row) = .error e →
        extractLoop enc (.ok row :: rest) st
          = (st, some ("failed to write row to memory buffer: " ++ e)))
    ∧ (∀ (enc : Encoder) (inp : JobInput)
        (rows : List (Except String DynamicRow)) (st : JobState) (e : String),
        inp.dbNil = false → inp.queryResult = .ok rows →
        extractLoop enc rows ⟨[], 0, 0⟩ = (st, some e) →
        (executeJob enc inp).outcome = .error e)
    ∧ (∀ (enc : Encoder) (inp : JobInput)
        (rows : List (Except String DynamicRow)),
        inp.dbNil = false → inp.queryResult = .ok rows →
        (∀ row : DynamicRow, .ok row ∈ rows →
          ∃ s, enc (ToSaveable row) = .ok s) →
        (executeJob enc inp).skipped = rows.countP isParseFailure
        ∧ (executeJob enc inp).extracted
            = rows.countP (fun r => !isParseFailure r)
        ∧ (executeJob enc inp).buf.length
            = rows.countP (fun r => !isParseFailure r))
    ∧ ((executeJob encOk jobInputTenOneBad).extracted = 9
        ∧ (executeJob encOk jobInputTenOneBad).skipped = 1
        ∧ (executeJob encOk jobInputTenOneBad).buf.length = 9
        ∧ (executeJob encOk jobInputTenOneBad).loadSubmitted = true
        ∧ (executeJob encOk jobInputTenOneBad).outcome = .ok ()) := by
  refine ⟨fun enc rest st e => rfl, fun enc rest st row e h => ?_,
    fun enc inp rows st e hdb hq hloop => ?_,
    fun enc inp rows hdb hq henc => ?_, rfl, rfl, rfl, rfl, rfl⟩
  · simp only [extractLoop, h]
  · unfold executeJob
    simp only [hdb, hq, Bool.false_eq_true, if_false, hloop]
  · have hall := extractLoop_all_encode_ok enc rows ⟨[], 0, 0⟩ henc
    dsimp only at hall
    simp only [List.length_nil, Nat.zero_add] at hall
    have hloop : extractLoop enc rows ⟨[], 0, 0⟩
        = ((extractLoop enc rows ⟨[], 0, 0⟩).1, none) := by
      conv_lhs => rw [show extractLoop enc rows ⟨[], 0, 0⟩
        = ((extractLoop enc rows ⟨[], 0, 0⟩).1,
           (extractLoop enc rows ⟨[], 0, 0⟩).2) from rfl]
      rw [hall.1]
    have hfields := executeJob_state_fields enc inp rows
      (extractLoop enc rows ⟨[], 0, 0⟩).1 hdb hq hloop
    refine ⟨?_, ?_, ?_⟩
    · exact hfields.2.1.trans hall.2.1
    · exact hfields.1.trans hall.2.2.1
    · rw [hfields.2.2]
      exact hall.2.2.2

/-- Witness for C3: the fatal-encode conjunct applied to a concrete
one-row input whose encoder fails. -/
theorem c3_parse_skip_encode_fatal_witness :
    (executeJob (fun _ => .error "bad utf8")
        (JobInput.mk false (.ok [.ok sampleParsedRow]) none (.ok ())
          (.ok ()) none)).outcome
      = .error ("failed to write row to memory buffer: " ++ "bad utf8") :=
  c3_parse_skip_encode_fatal.2.2.1 (fun _ => .error "bad utf8")
    (JobInput.mk false (.ok [.ok sampleParsedRow]) none (.ok ()) (.ok ()) none)
    [.ok sampleParsedRow] ⟨[], 0, 0⟩
    ("failed to write row to memory buffer: " ++ "bad utf8")
    rfl rfl rfl

/-- C4: whenever a load is submitted, at least one row was extracted; and
a run over a healthy handle whose iteration completes with zero rows
extracted returns success without submitting any load, leaving the
destination table untouched. -/
theorem c4_zero_rows_no_load :
    (∀ (enc : Encoder) (inp : JobInput),
        (executeJob enc inp).loadSubmitted = true →
        (executeJob enc inp).extracted ≠ 0)
    ∧ (∀ (enc : Encoder) (inp : JobInput)
        (rows : List (Except String DynamicRow)),
        inp.dbNil = false → inp.queryResult = .ok rows →
        inp.iterErr = none →
        (∀ row : DynamicRow, .ok row ∈ rows →
          ∃ s, enc (ToSaveable row) = .ok s) →
        (executeJob enc inp).extracted = 0 →
        (executeJob enc inp).outcome = .ok ()
        ∧ (executeJob enc inp).loadSubmitted = false) := by
  constructor
  · intro enc inp
    unfold executeJob
    cases hdb : inp.dbNil with
    | true =>
      intro h
      simp at h
    | false =>
      simp only [Bool.false_eq_true, if_false]
      cases hq : inp.queryResult with
      | error e =>
        intro h
        simp at h
      | ok rows =>
        dsimp only
        cases hpr : extractLoop enc rows ⟨[], 0, 0⟩ with
        | mk st fat =>
          cases fat with
          | some e =>
            intro h
            simp at h
          | none =>
            dsimp only
            cases inp.iterErr with
            | some e =>
              intro h
              simp at h
            | none =>
              dsimp only
              by_cases hz : st.extracted = 0
              · rw [if_pos hz]
                intro h
                simp at h
              · rw [if_neg hz]
                cases inp.loadRun with
                | error e => exact fun _ => hz
                | ok u =>
                  dsimp only
                  cases inp.loadWait with
                  | error e => exact fun _ => hz
                  | ok v =>
                    dsimp only
                    cases inp.loadStatus with
                    | some e => exact fun _ => hz
                    | none => exact fun _ => hz
  · intro enc inp rows hdb hq hie henc h0
    have hall := extractLoop_all_encode_ok enc rows ⟨[], 0, 0⟩ henc
    cases hpr : extractLoop enc rows ⟨[], 0, 0⟩ with
    | mk st fat =>
      have hfat : fat = none := by
        have h2 := hall.1
        rw [hpr] at h2
        exact h2
      subst hfat
      have hfields := executeJob_state_fields enc inp rows st hdb hq hpr
      have hz : st.extracted = 0 := by
        rw [← hfields.1]
        exact h0
      unfold executeJob
      simp only [hdb, hq, Bool.false_eq_true, if_false, hpr, hie]
      rw [if_pos hz]
      exact ⟨rfl, rfl⟩

/-- Witness for C4: an empty result set ends in success with no load
submitted. -/
theorem c4_zero_rows_no_load_witness :
    (executeJob encOk
        (JobInput.mk false (.ok []) none (.ok ()) (.ok ()) none)).outcome
        = .ok ()
    ∧ (executeJob encOk
        (JobInput.mk false (.ok []) none (.ok ()) (.ok ()) none)).loadSubmitted
        = false :=
  c4_zero_rows_no_load.2 encOk
    (JobInput.mk false (.ok []) none (.ok ()) (.ok ()) none) []
    rfl rfl rfl (fun _row hrow => absurd hrow (List.not_mem_nil _)) rfl

end DataSync
